import Mathlib

/-!
Shallow embedding of `src/asyncioList/AsyncioList.py` (class `AsyncioList`)
and `src/asyncioList/exceptions.py`.

The container state is the pair of the underlying Python list (`_items`) and
the flag of the `asyncio.Event` change signal (`_change_event`).  The
`asyncio.Lock` is acquired and released inside every operation, so in this
sequential embedding each operation is an atomic state transformer; the one
place the lock is externally observable in a claim — `extend` on an empty
argument returns before `async with self._lock` — is recorded by a boolean
"acquired the lock" component in `extend`'s result.

Raised exceptions are modelled with `Except`/pairs carrying an `Err` value
together with the state after the call (Python leaves the list and the event
untouched when these operations raise).  Python `list` primitives
(`insert`, `pop`, `remove`, slicing, `index`) are embedded by `py*` helper
functions that follow the CPython semantics of those primitives, including
negative-index normalisation and the clamping behaviour of `list.insert`.
-/

set_option autoImplicit false

universe u

variable {T : Type u}

/-- Error kinds of the package, from `src/asyncioList/exceptions.py` plus the
constructor's `TypeError`, under the spec's taxonomy names:
`indexOutOfBounds` is `IndexOutOfBoundsError`, `notFound` is the base
`AsyncioListError` raised for value-lookup failures, `invalidArgument` is the
`TypeError` raised by `__init__` on a non-list argument. -/
inductive Err where
  | indexOutOfBounds
  | notFound
  | invalidArgument
deriving DecidableEq, Repr

/-- CPython `list.insert` position normalisation (`ins1` in `listobject.c`):
a negative index counts from the end and is clamped to `0`; an index beyond
the length is clamped to the length.  `list.insert` never raises for any
index. -/
def pyInsertPos (n : Nat) (index : Int) : Nat :=
  if index < 0 then (index + n).toNat else min index.toNat n

/-- CPython `list.insert`: place `item` at the clamped position. -/
def pyInsert (xs : List T) (index : Int) (item : T) : List T :=
  let pos := pyInsertPos xs.length index
  xs.take pos ++ item :: xs.drop pos

/-- CPython `list.pop(index)`: a negative index has the length added; the
result is the element at that position and the list with it removed, or
`none` (an `IndexError`) when the normalised index is outside `[0, n)`. -/
def pyPop (xs : List T) (index : Int) : Option (T × List T) :=
  let j : Int := if index < 0 then index + xs.length else index
  if j < 0 then none
  else
    match xs.get? j.toNat with
    | some x => some (x, xs.eraseIdx j.toNat)
    | none => none

/-- CPython `list.remove(item)`: drop the first element equal to `item`, or
`none` (a `ValueError`) when no element is equal to it. -/
def pyRemove [DecidableEq T] (xs : List T) (item : T) : Option (List T) :=
  match xs with
  | [] => none
  | x :: rest =>
      if x = item then some rest
      else (pyRemove rest item).map (fun ys => x :: ys)

/-- CPython bound normalisation for `list.index` start/end arguments: a
negative bound has the length added and is clamped to `0`; any bound is
clamped to the length. -/
def pyBound (n : Nat) (i : Int) : Nat :=
  if i < 0 then (i + n).toNat else min i.toNat n

/-- CPython slice-index adjustment (`PySlice_AdjustIndices`). -/
def pySliceAdjust (n : Nat) (step i : Int) : Int :=
  if i < 0 then
    (if i + n < 0 then (if step < 0 then -1 else 0) else i + n)
  else
    (if (n : Int) ≤ i then (if step < 0 then (n : Int) - 1 else (n : Int)) else i)

/-- Number of elements selected by a slice with adjusted bounds
(`PySlice_AdjustIndices` length formula; the divisions are on non-negative
quantities, so `Nat` division agrees with C's). -/
def pySliceLen (start stop step : Int) : Nat :=
  if 0 < step then
    (if start < stop then ((stop - start - 1).toNat / step.toNat) + 1 else 0)
  else
    (if stop < start then ((start - stop - 1).toNat / (-step).toNat) + 1 else 0)

/-- CPython extended slicing `xs[start:stop:step]`; `none` models the
`ValueError` raised when `step = 0`. -/
def pySlice (xs : List T) (start stop step : Int) : Option (List T) :=
  if step = 0 then none
  else
    let a := pySliceAdjust xs.length step start
    let b := pySliceAdjust xs.length step stop
    some ((List.range (pySliceLen a b step)).filterMap
      (fun i => xs.get? (a + i * step).toNat))

/-- State of one `AsyncioList` instance: the `_items` list and the flag of
the `_change_event` event (`asyncio.Event` starts unset). -/
structure AsyncioList (T : Type u) where
  items : List T
  change_event : Bool
deriving DecidableEq, Repr

/-- Constructor argument: `None`, a Python `list`, or a value of any other
type (which `isinstance(initial_list, list)` rejects). -/
inductive InitArg (T : Type u) where
  | ofList (xs : List T)
  | nonList
deriving DecidableEq, Repr

namespace AsyncioList

/-- Method `__init__`: with no argument the container starts empty; a `list`
argument is copied (`list(initial_list)`) into fresh storage; any other
value raises `TypeError`, the spec's `InvalidArgument`.  The event starts
unset. -/
def init : Option (InitArg T) → Except Err (AsyncioList T)
  | none => .ok ⟨[], false⟩
  | some (.ofList xs) => .ok ⟨xs, false⟩
  | some .nonList => .error .invalidArgument

/-- Method `append`: add at the end; the event is set only when it is not already
set (source lines 46-53), so it is set afterwards either way. -/
def append (s : AsyncioList T) (item : T) : AsyncioList T :=
  ⟨s.items ++ [item], if !s.change_event then true else s.change_event⟩

/-- Method `extend`: `if not items: return` happens before `async with self._lock`,
so an empty argument changes nothing and never takes the lock; otherwise all
elements are appended in order and the event is set.  The boolean result
records whether the lock was acquired. -/
def extend (s : AsyncioList T) (items : List T) : AsyncioList T × Bool :=
  if items.isEmpty then (s, false)
  else (⟨s.items ++ items, true⟩, true)

/-- Method `insert`: delegates to `list.insert`, which clamps every index and never
raises `IndexError`, so the `except IndexError` branch (source lines 68-69)
is unreachable and the result is always `ok`; the event is set. -/
def insert (s : AsyncioList T) (index : Int) (item : T) :
    Except Err Unit × AsyncioList T :=
  (.ok (), ⟨pyInsert s.items index item, true⟩)

/-- Method `remove`: `list.remove` drops the first equal element and the event is
set; its `ValueError` on absence becomes `AsyncioListError` (`notFound`) and
the state is untouched. -/
def remove [DecidableEq T] (s : AsyncioList T) (item : T) :
    Except Err Unit × AsyncioList T :=
  match pyRemove s.items item with
  | some rest => (.ok (), ⟨rest, true⟩)
  | none => (.error .notFound, s)

/-- Method `pop`: `list.pop(index)`, default `-1`; on success the event is set only
when not already set (source lines 96-97); `IndexError` becomes
`IndexOutOfBoundsError` with the state untouched. -/
def pop (s : AsyncioList T) (index : Int := -1) :
    Except Err T × AsyncioList T :=
  match pyPop s.items index with
  | some (x, rest) =>
      (.ok x, ⟨rest, if !s.change_event then true else s.change_event⟩)
  | none => (.error .indexOutOfBounds, s)

/-- Method `clear`: empty the list and set the event. -/
def clear (s : AsyncioList T) : AsyncioList T :=
  ⟨[], true⟩

/-- Method `index`: first position of `item` within the normalised window
`[start, end)` (`end = None` searches to the length, via
`self._items.index(item, start)`); `ValueError` on absence becomes
`AsyncioListError` (`notFound`).  No mutation. -/
def index [DecidableEq T] (s : AsyncioList T) (item : T) (start : Int := 0)
    (stop? : Option Int := none) : Except Err Nat × AsyncioList T :=
  match ((s.items.drop (pyBound s.items.length start)).take
      ((match stop? with
        | none => s.items.length
        | some e => pyBound s.items.length e)
        - pyBound s.items.length start)).findIdx? (fun x => x == item) with
  | some k => (.ok (pyBound s.items.length start + k), s)
  | none => (.error .notFound, s)

/-- Method `count`: number of equal elements.  No mutation. -/
def count [DecidableEq T] (s : AsyncioList T) (item : T) :
    Nat × AsyncioList T :=
  (s.items.count item, s)

/-- Method `contains`: value membership.  No mutation. -/
def contains [DecidableEq T] (s : AsyncioList T) (item : T) :
    Bool × AsyncioList T :=
  (s.items.contains item, s)

/-- Method `slice`: `self._items[start:stop:step]`, a fresh list.  No mutation. -/
def slice (s : AsyncioList T) (start stop : Int) (step : Int := 1) :
    Option (List T) × AsyncioList T :=
  (pySlice s.items start stop step, s)

/-- Method `reverse`: reverse in place and set the event. -/
def reverse (s : AsyncioList T) : AsyncioList T :=
  ⟨s.items.reverse, true⟩

/-- Method `sort`: `self._items.sort(**kwargs)` is an opaque stable sort under a
caller-supplied order; the event is set. -/
def sort (s : AsyncioList T) (le : T → T → Bool) : AsyncioList T :=
  ⟨s.items.mergeSort le, true⟩

/-- Method `get`: element at `index`; the explicit bound check
`index < 0 or index >= len(self._items)` rejects every negative index.  No
mutation. -/
def get (s : AsyncioList T) (index : Int) : Except Err T × AsyncioList T :=
  if index < 0 ∨ (s.items.length : Int) ≤ index then
    (.error .indexOutOfBounds, s)
  else
    match s.items.get? index.toNat with
    | some x => (.ok x, s)
    | none => (.error .indexOutOfBounds, s)

/-- Method `length`: current element count.  No mutation. -/
def length (s : AsyncioList T) : Nat × AsyncioList T :=
  (s.items.length, s)

/-- Method `is_empty`: `await self.length() == 0`.  No mutation. -/
def is_empty (s : AsyncioList T) : Bool × AsyncioList T :=
  ((length s).1 == 0, (length s).2)

/-- Method `delete_all`: rebuild keeping the elements not equal to `item`
(`[i for i in self._items if i != item]`); the event is set
unconditionally. -/
def delete_all [DecidableEq T] (s : AsyncioList T) (item : T) :
    AsyncioList T :=
  ⟨s.items.filter (fun i => i != item), true⟩

/-- Method `__aiter__`: under the lock, copy the list (`items = list(self._items)`)
and afterwards yield exactly the elements of that copy in order.  The first
component is the snapshot the iteration yields; the state is untouched. -/
def aiterSnapshot (s : AsyncioList T) : List T × AsyncioList T :=
  (s.items, s)

/-- Method `wait_for_change`: `setDuringWait` says whether the environment sets the
event before the timeout elapses while the waiter is blocked (when the event
is already set the waiter returns at once).  The result is `true` on signal,
`false` on `asyncio.TimeoutError`, and the `finally` block clears the event
in both cases. -/
def wait_for_change (s : AsyncioList T) (setDuringWait : Bool) :
    Bool × AsyncioList T :=
  (s.change_event || setDuringWait, ⟨s.items, false⟩)

/-- Method `__aexit__`: release the lock and set the event unconditionally. -/
def aexit (s : AsyncioList T) : AsyncioList T :=
  ⟨s.items, true⟩

/-- Repeatedly `pop()` (default index `-1`), collecting the popped elements
in order; each pop shortens the list by one, so `xs.length` rounds suffice
to drain `xs` to empty. -/
def drainPopsAux : Nat → List T → List T
  | 0, _ => []
  | fuel + 1, xs =>
      match pyPop xs (-1) with
      | none => []
      | some (x, rest) => x :: drainPopsAux fuel rest

/-- The sequence of elements obtained by repeated argument-less `pop()`
until the list is empty. -/
def drainPops (xs : List T) : List T :=
  drainPopsAux xs.length xs

end AsyncioList

/-! ### Helper lemmas about the embedded Python list primitives -/

theorem pyPop_nil (index : Int) : pyPop ([] : List T) index = none := by
  simp [pyPop]

theorem pyPop_concat (xs : List T) (x : T) :
    pyPop (xs ++ [x]) (-1) = some (x, xs) := by
  unfold pyPop
  have hj : (if (-1 : Int) < 0 then -1 + ((xs ++ [x]).length : Int) else -1)
      = (xs.length : Int) := by
    simp
  rw [hj]
  rw [if_neg (by omega)]
  have htn : ((xs.length : Int)).toNat = xs.length := Int.toNat_natCast _
  rw [htn]
  rw [List.get?_concat_length]
  rw [List.eraseIdx_eq_take_drop_succ]
  rw [List.take_left]
  have hd : List.drop (xs.length + 1) (xs ++ [x]) = [] := by
    apply List.drop_eq_nil_of_le
    simp
  rw [hd, List.append_nil]

theorem pyPop_normalized (xs : List T) (index : Int) (pos : Nat)
    (hpos : (pos : Int) = if index < 0 then index + xs.length else index)
    (hlt : pos < xs.length) :
    pyPop xs index =
      some (xs.get ⟨pos, hlt⟩, xs.take pos ++ xs.drop (pos + 1)) := by
  unfold pyPop
  rw [← hpos]
  rw [if_neg (by omega)]
  rw [Int.toNat_natCast]
  rw [List.get?_eq_get hlt]
  rw [List.eraseIdx_eq_take_drop_succ]

theorem pyPop_out_of_range (xs : List T) (index : Int)
    (h : index < -(xs.length : Int) ∨ (xs.length : Int) ≤ index) :
    pyPop xs index = none := by
  unfold pyPop
  rcases h with h | h
  · rw [if_pos (by omega)]
  · have hge : ¬ index < 0 := by omega
    rw [if_neg hge, if_neg (by omega)]
    have : xs.get? index.toNat = none := by
      rw [List.get?_eq_none]
      omega
    rw [this]

theorem pyRemove_eq_none [DecidableEq T] {xs : List T} {v : T} (h : v ∉ xs) :
    pyRemove xs v = none := by
  induction xs with
  | nil => rfl
  | cons x rest ih =>
      have hx : ¬ x = v := fun hxv => h (hxv ▸ List.mem_cons_self x rest)
      have hrest : v ∉ rest := fun hv => h (List.mem_cons_of_mem x hv)
      unfold pyRemove
      rw [if_neg hx, ih hrest]
      rfl

theorem pyRemove_first [DecidableEq T] (pre post : List T) (v : T)
    (h : v ∉ pre) :
    pyRemove (pre ++ v :: post) v = some (pre ++ post) := by
  induction pre with
  | nil => simp [pyRemove]
  | cons a pre ih =>
      have ha : ¬ a = v := fun hav => h (hav ▸ List.mem_cons_self a pre)
      have hpre : v ∉ pre := fun hv => h (List.mem_cons_of_mem a hv)
      simp only [List.cons_append]
      unfold pyRemove
      rw [if_neg ha, ih hpre]
      rfl

theorem drainPopsAux_eq_reverse (fuel : Nat) (xs : List T)
    (h : xs.length ≤ fuel) : AsyncioList.drainPopsAux fuel xs = xs.reverse := by
  induction fuel generalizing xs with
  | zero =>
      have hx : xs = [] := List.eq_nil_of_length_eq_zero (Nat.le_zero.mp h)
      subst hx
      rfl
  | succ fuel ih =>
      rcases List.eq_nil_or_concat xs with rfl | ⟨ys, y, rfl⟩
      · simp [AsyncioList.drainPopsAux, pyPop_nil]
      · rw [List.concat_eq_append]
        rw [List.concat_eq_append] at h
        simp only [AsyncioList.drainPopsAux]
        rw [pyPop_concat]
        have hy : ys.length ≤ fuel := by
          simp only [List.length_append, List.length_cons, List.length_nil] at h
          omega
        show y :: AsyncioList.drainPopsAux fuel ys = (ys ++ [y]).reverse
        rw [ih ys hy]
        simp

theorem drainPops_eq_reverse (xs : List T) :
    AsyncioList.drainPops xs = xs.reverse :=
  drainPopsAux_eq_reverse xs.length xs (Nat.le_refl _)

theorem remove_mk [DecidableEq T] (xs : List T) (ev : Bool) (v : T) :
    AsyncioList.remove (⟨xs, ev⟩ : AsyncioList T) v
      = match pyRemove xs v with
        | some rest => (Except.ok (), ⟨rest, true⟩)
        | none => (Except.error Err.notFound, ⟨xs, ev⟩) := rfl

theorem pop_mk (xs : List T) (ev : Bool) (index : Int) :
    AsyncioList.pop (⟨xs, ev⟩ : AsyncioList T) index
      = match pyPop xs index with
        | some (x, rest) => (Except.ok x, ⟨rest, if !ev then true else ev⟩)
        | none => (Except.error Err.indexOutOfBounds, ⟨xs, ev⟩) := rfl

theorem get_snd (s : AsyncioList T) (i : Int) :
    (AsyncioList.get s i).2 = s := by
  unfold AsyncioList.get
  split
  · rfl
  · split <;> rfl

theorem index_snd [DecidableEq T] (s : AsyncioList T) (v : T) (start : Int)
    (stop? : Option Int) : (AsyncioList.index s v start stop?).2 = s := by
  unfold AsyncioList.index
  repeat' split
  all_goals rfl

/-! ### Claims -/

/-- C2: every successful mutating operation — `append`, non-empty `extend`,
`insert`, `remove`, `pop`, `clear`, `reverse`, `sort`, `delete_all` — and
exiting a scoped exclusive-access block (`__aexit__`) leaves the change
event set; the read-only operations — `get`, `length`, `count`, `contains`,
`index`, `slice`, `is_empty` and taking the iteration snapshot — return the
state exactly as it was, so they never set the event. -/
theorem C2_change_signal {T : Type u} [DecidableEq T] (s : AsyncioList T)
    (item v : T) (items : List T) (idx start stop step : Int)
    (stop? : Option Int) (le : T → T → Bool) :
    ((AsyncioList.append s item).change_event = true) ∧
    (items ≠ [] → (AsyncioList.extend s items).1.change_event = true) ∧
    ((AsyncioList.insert s idx item).2.change_event = true) ∧
    (∀ u t, AsyncioList.remove s v = (Except.ok u, t) →
        t.change_event = true) ∧
    (∀ x t, AsyncioList.pop s idx = (Except.ok x, t) →
        t.change_event = true) ∧
    ((AsyncioList.clear s).change_event = true) ∧
    ((AsyncioList.reverse s).change_event = true) ∧
    ((AsyncioList.sort s le).change_event = true) ∧
    ((AsyncioList.delete_all s v).change_event = true) ∧
    ((AsyncioList.aexit s).change_event = true) ∧
    ((AsyncioList.get s idx).2 = s) ∧
    ((AsyncioList.length s).2 = s) ∧
    ((AsyncioList.count s v).2 = s) ∧
    ((AsyncioList.contains s v).2 = s) ∧
    ((AsyncioList.index s v start stop?).2 = s) ∧
    ((AsyncioList.slice s start stop step).2 = s) ∧
    ((AsyncioList.is_empty s).2 = s) ∧
    ((AsyncioList.aiterSnapshot s).2 = s) := by
  refine ⟨?_, ?_, rfl, ?_, ?_, rfl, rfl, rfl, rfl, rfl, get_snd s idx, rfl,
    rfl, rfl, index_snd s v start stop?, rfl, rfl, rfl⟩
  · cases hc : s.change_event <;> simp [AsyncioList.append, hc]
  · intro h
    cases items with
    | nil => exact absurd rfl h
    | cons a as => rfl
  · intro u t h
    cases hr : pyRemove s.items v with
    | none =>
        have : AsyncioList.remove s v = (Except.error Err.notFound, s) := by
          unfold AsyncioList.remove
          rw [hr]
        rw [this] at h
        exact absurd h (by simp)
    | some rest =>
        have : AsyncioList.remove s v = (Except.ok (), ⟨rest, true⟩) := by
          unfold AsyncioList.remove
          rw [hr]
        rw [this] at h
        rw [Prod.mk.injEq] at h
        obtain ⟨-, rfl⟩ := h
        rfl
  · intro x t h
    cases hp : pyPop s.items idx with
    | none =>
        have : AsyncioList.pop s idx
            = (Except.error Err.indexOutOfBounds, s) := by
          unfold AsyncioList.pop
          rw [hp]
        rw [this] at h
        exact absurd h (by simp)
    | some p =>
        obtain ⟨y, rest⟩ := p
        have : AsyncioList.pop s idx
            = (Except.ok y,
               ⟨rest, if !s.change_event then true else s.change_event⟩) := by
          unfold AsyncioList.pop
          rw [hp]
        rw [this] at h
        rw [Prod.mk.injEq] at h
        obtain ⟨-, rfl⟩ := h
        cases hc : s.change_event <;> simp [hc]

/-- C2 witness: a non-empty `extend` and a successful `pop` on a state with
the event unset leave it set. -/
theorem C2_witness :
    (AsyncioList.extend (⟨[1], false⟩ : AsyncioList Int) [2]).1.change_event
      = true ∧
    ∀ x t, AsyncioList.pop (⟨[1], false⟩ : AsyncioList Int) 0
        = (Except.ok x, t) → t.change_event = true :=
  ⟨(C2_change_signal (⟨[1], false⟩ : AsyncioList Int) 2 2 [2] 0 0 0 1 none
      (fun a b => decide (a ≤ b))).2.1 (by decide),
   (C2_change_signal (⟨[1], false⟩ : AsyncioList Int) 2 2 [2] 0 0 0 1 none
      (fun a b => decide (a ≤ b))).2.2.2.2.1⟩

/-- C3: `wait_for_change` is total (it never raises: its result is a plain
boolean): it returns `true` iff the change event is already set or becomes
set before the timeout elapses, and `false` on timeout; after every
completed call the event is cleared (and the list untouched), so an
immediate subsequent call with no new mutation does not see a stale signal
and times out again. -/
theorem C3_wait_for_change {T : Type u} (s : AsyncioList T)
    (setDuringWait : Bool) :
    ((AsyncioList.wait_for_change s setDuringWait).1
        = (s.change_event || setDuringWait)) ∧
    (s.change_event = true →
        (AsyncioList.wait_for_change s setDuringWait).1 = true) ∧
    (s.change_event = false → setDuringWait = false →
        (AsyncioList.wait_for_change s setDuringWait).1 = false) ∧
    ((AsyncioList.wait_for_change s setDuringWait).2.change_event = false) ∧
    ((AsyncioList.wait_for_change s setDuringWait).2.items = s.items) ∧
    ((AsyncioList.wait_for_change
        (AsyncioList.wait_for_change s setDuringWait).2 false).1 = false) := by
  refine ⟨rfl, ?_, ?_, rfl, rfl, rfl⟩
  · intro h
    simp [AsyncioList.wait_for_change, h]
  · intro h1 h2
    simp [AsyncioList.wait_for_change, h1, h2]

/-- C3 witness: a call on an already-set event returns `true`; after it, a
call with no new mutation returns `false`. -/
theorem C3_witness :
    (AsyncioList.wait_for_change (⟨([] : List Int), true⟩ : AsyncioList Int)
        false).1 = true ∧
    (AsyncioList.wait_for_change
        (AsyncioList.wait_for_change (⟨([] : List Int), true⟩ : AsyncioList Int)
          false).2 false).1 = false :=
  ⟨(C3_wait_for_change (⟨([] : List Int), true⟩ : AsyncioList Int) false).2.1
      rfl,
   (C3_wait_for_change (⟨([] : List Int), true⟩ : AsyncioList Int)
      false).2.2.2.2.2⟩

/-- C4: asynchronous iteration yields exactly, in order, the elements of the
snapshot taken under the lock at iteration start, it leaves the container
(including the change event) untouched, and a snapshot taken before an
`append` by another task does not observe the appended element. -/
theorem C4_aiter_snapshot {T : Type u} (s : AsyncioList T) (d : T) :
    (AsyncioList.aiterSnapshot s).1 = s.items ∧
    (AsyncioList.aiterSnapshot s).2 = s ∧
    (AsyncioList.aiterSnapshot s).1 ≠ (AsyncioList.append s d).items := by
  refine ⟨rfl, rfl, ?_⟩
  intro h
  have hlen := congrArg List.length h
  simp only [AsyncioList.aiterSnapshot, AsyncioList.append,
    List.length_append, List.length_cons, List.length_nil] at hlen
  omega

/-- C5: construction with no argument yields the empty container with the
event unset; construction from a list copies its contents; construction from
any non-list value fails with the `InvalidArgument` error kind (the
`TypeError` raised by `__init__`). -/
theorem C5_init {T : Type u} (xs : List T) :
    AsyncioList.init (T := T) none = Except.ok ⟨[], false⟩ ∧
    AsyncioList.init (some (InitArg.ofList xs)) = Except.ok ⟨xs, false⟩ ∧
    AsyncioList.init (T := T) (some InitArg.nonList)
      = Except.error Err.invalidArgument :=
  ⟨rfl, rfl, rfl⟩

/-- C8: `delete_all v` keeps exactly the elements not equal to `v`,
preserving their relative order (the result is a sublist of the input), it
never fails (it is a total state transformer), and it sets the change event
even when nothing was removed — including on the spec's examples
`[1,2,1,1] ↦ [2]` and the zero-match call on `[2]`. -/
theorem C8_delete_all {T : Type u} [DecidableEq T] (s : AsyncioList T)
    (v : T) :
    (AsyncioList.delete_all s v).items = s.items.filter (fun i => i != v) ∧
    ((AsyncioList.delete_all s v).items).Sublist s.items ∧
    v ∉ (AsyncioList.delete_all s v).items ∧
    (AsyncioList.delete_all s v).change_event = true ∧
    AsyncioList.delete_all (⟨[1, 2, 1, 1], false⟩ : AsyncioList Nat) 1
      = ⟨[2], true⟩ ∧
    AsyncioList.delete_all (⟨[2], false⟩ : AsyncioList Nat) 1
      = ⟨[2], true⟩ := by
  refine ⟨rfl, List.filter_sublist _, ?_, rfl, by decide, by decide⟩
  intro hv
  rw [AsyncioList.delete_all] at hv
  simp only [List.mem_filter] at hv
  simp at hv

/-- C9: `extend` with a non-empty argument appends all of its elements at
the end in order and sets the change event (acquiring the lock, recorded by
the `true` flag); `extend []` returns before touching the lock and changes
neither the list length nor the event. -/
theorem C9_extend {T : Type u} (s : AsyncioList T) (items : List T) :
    (items ≠ [] →
      AsyncioList.extend s items = (⟨s.items ++ items, true⟩, true)) ∧
    (AsyncioList.extend s [] = (s, false)) ∧
    ((AsyncioList.extend s []).1.items.length = s.items.length) ∧
    ((AsyncioList.extend s []).1.change_event = s.change_event) := by
  refine ⟨?_, rfl, rfl, rfl⟩
  intro h
  cases items with
  | nil => exact absurd rfl h
  | cons a as => rfl

/-- C6: when the list is `pre ++ v :: post` with no occurrence of `v` in
`pre`, `remove v` deletes exactly that first occurrence, leaving the other
elements and their order unchanged and setting the change event; when no
element equals `v`, `remove v` fails with `NotFound` and the state is
unchanged. -/
theorem C6_remove_first {T : Type u} [DecidableEq T] (pre post xs : List T)
    (v : T) (ev : Bool) :
    (v ∉ pre →
      AsyncioList.remove (⟨pre ++ v :: post, ev⟩ : AsyncioList T) v
        = (Except.ok (), ⟨pre ++ post, true⟩)) ∧
    (v ∉ xs →
      AsyncioList.remove (⟨xs, ev⟩ : AsyncioList T) v
        = (Except.error Err.notFound, ⟨xs, ev⟩)) := by
  constructor
  · intro h
    rw [remove_mk, pyRemove_first pre post v h]
  · intro h
    rw [remove_mk, pyRemove_eq_none h]

/-- C6 witness: `remove 1` on `[1, 2, 1]` yields `[2, 1]` (spec example),
and `remove 9` on `[1, 2, 1]` fails with `NotFound` leaving the state
unchanged. -/
theorem C6_witness :
    AsyncioList.remove (⟨[1, 2, 1], false⟩ : AsyncioList Int) 1
      = (Except.ok (), ⟨[2, 1], true⟩) ∧
    AsyncioList.remove (⟨[1, 2, 1], false⟩ : AsyncioList Int) 9
      = (Except.error Err.notFound, ⟨[1, 2, 1], false⟩) :=
  ⟨(C6_remove_first [] [2, 1] [] 1 false).1 (by decide),
   (C6_remove_first [] [] [1, 2, 1] 9 false).2 (by decide)⟩

/-- C7: `pop()` (default index `-1`) on a non-empty list removes and
returns the last element and sets the change event; repeated argument-less
pops drain any list to empty in reverse order; `pop` on the empty list, and
`pop` with any index invalid for the current length, fails with
`IndexOutOfBounds` and leaves the state unchanged. -/
theorem C7_pop_last {T : Type u} (xs ys : List T) (x : T) (ev : Bool)
    (index : Int) :
    (AsyncioList.pop (⟨xs ++ [x], ev⟩ : AsyncioList T) (-1)
        = (Except.ok x, ⟨xs, true⟩)) ∧
    (AsyncioList.drainPops ys = ys.reverse) ∧
    (AsyncioList.pop (⟨([] : List T), ev⟩ : AsyncioList T) index
        = (Except.error Err.indexOutOfBounds, ⟨[], ev⟩)) ∧
    (index < -(ys.length : Int) ∨ (ys.length : Int) ≤ index →
      AsyncioList.pop (⟨ys, ev⟩ : AsyncioList T) index
        = (Except.error Err.indexOutOfBounds, ⟨ys, ev⟩)) := by
  refine ⟨?_, drainPops_eq_reverse ys, ?_, ?_⟩
  · rw [pop_mk, pyPop_concat]
    cases ev <;> rfl
  · rw [pop_mk, pyPop_nil]
  · intro h
    rw [pop_mk, pyPop_out_of_range ys index h]

/-- C7 witness: popping `[7, 8]` returns `8` leaving `[7]`; popping the
empty list fails; popping `[7, 8]` at index `2` fails and leaves the state
unchanged. -/
theorem C7_witness :
    AsyncioList.pop (⟨[7, 8], false⟩ : AsyncioList Int) (-1)
      = (Except.ok 8, ⟨[7], true⟩) ∧
    AsyncioList.pop (⟨([] : List Int), false⟩ : AsyncioList Int) (-1)
      = (Except.error Err.indexOutOfBounds, ⟨[], false⟩) ∧
    AsyncioList.pop (⟨[7, 8], false⟩ : AsyncioList Int) 2
      = (Except.error Err.indexOutOfBounds, ⟨[7, 8], false⟩) :=
  ⟨(C7_pop_last [7] [] (8 : Int) false (-1)).1,
   (C7_pop_last [] ([] : List Int) 0 false (-1)).2.2.1,
   (C7_pop_last [] ([7, 8] : List Int) 0 false 2).2.2.2 (by decide)⟩

/-- C1 counterexample: on the length-3 list `[1, 2, 3]`, `insert` at index
`5` (outside `[0, 3]`) does not fail with `IndexOutOfBounds`: it succeeds,
appends the item at the end, and sets the change event. -/
theorem C1_counterexample :
    (AsyncioList.insert (⟨[1, 2, 3], false⟩ : AsyncioList Int) 5 0).1
        ≠ Except.error Err.indexOutOfBounds ∧
    AsyncioList.insert (⟨[1, 2, 3], false⟩ : AsyncioList Int) 5 0
        = (Except.ok (), ⟨[1, 2, 3, 0], true⟩) := by
  refine ⟨?_, rfl⟩
  intro h
  simp [AsyncioList.insert] at h

/-- C1 (amended): `insert index item` never fails and always sets the
change event; with `0 ≤ index ≤ n` the item comes to occupy position
`index`, shifting the subsequent elements right; an index above `n` is
clamped to the end (the item is appended) and an index below `-n` is
clamped to the front, a negative index `≥ -n` counting from the end —
CPython `list.insert` clamping instead of the claimed `IndexOutOfBounds`
failure. -/
theorem C1_insert_clamps {T : Type u} (s : AsyncioList T) (index : Int)
    (item : T) :
    ((AsyncioList.insert s index item).1 ≠ Except.error Err.indexOutOfBounds) ∧
    ((AsyncioList.insert s index item).2.change_event = true) ∧
    (0 ≤ index → index ≤ (s.items.length : Int) →
      (AsyncioList.insert s index item).2.items
        = s.items.take index.toNat ++ item :: s.items.drop index.toNat) ∧
    ((s.items.length : Int) ≤ index →
      (AsyncioList.insert s index item).2.items = s.items ++ [item]) ∧
    (index + (s.items.length : Int) ≤ 0 →
      (AsyncioList.insert s index item).2.items = item :: s.items) ∧
    (index < 0 → 0 ≤ index + (s.items.length : Int) →
      (AsyncioList.insert s index item).2.items
        = s.items.take (index + (s.items.length : Int)).toNat
            ++ item :: s.items.drop (index + (s.items.length : Int)).toNat) := by
  refine ⟨by simp [AsyncioList.insert], rfl, ?_, ?_, ?_, ?_⟩
  · intro h0 hn
    show pyInsert s.items index item = _
    rw [pyInsert, pyInsertPos]
    rw [if_neg (by omega)]
    have hmin : min index.toNat s.items.length = index.toNat := by omega
    rw [hmin]
  · intro hn
    show pyInsert s.items index item = _
    rw [pyInsert, pyInsertPos]
    rw [if_neg (by omega)]
    have hmin : min index.toNat s.items.length = s.items.length := by omega
    rw [hmin, List.take_length, List.drop_length]
  · intro h
    show pyInsert s.items index item = _
    rw [pyInsert, pyInsertPos]
    by_cases hneg : index < 0
    · rw [if_pos hneg]
      have h0 : (index + (s.items.length : Int)).toNat = 0 := by omega
      rw [h0]
      simp
    · rw [if_neg hneg]
      have h0 : min index.toNat s.items.length = 0 := by omega
      rw [h0]
      simp
  · intro hneg h0
    show pyInsert s.items index item = _
    rw [pyInsert, pyInsertPos]
    rw [if_pos hneg]

/-- C1 witness: in-range `insert 1` places the item at position 1 shifting
the rest right, and out-of-range `insert 5` on a length-3 list appends. -/
theorem C1_witness :
    (AsyncioList.insert (⟨[10, 20, 30], false⟩ : AsyncioList Int) 1 99).2.items
      = [10, 99, 20, 30] ∧
    (AsyncioList.insert (⟨[1, 2, 3], true⟩ : AsyncioList Int) 5 0).2.items
      = [1, 2, 3, 0] := by
  constructor
  · have h := (C1_insert_clamps (⟨[10, 20, 30], false⟩ : AsyncioList Int) 1
      99).2.2.1 (by decide) (by decide)
    rw [h]
    rfl
  · have h := (C1_insert_clamps (⟨[1, 2, 3], true⟩ : AsyncioList Int) 5
      0).2.2.2.1 (by decide)
    rw [h]
    rfl

/-- C9 witness: extending `[1]` by `[2, 3]` appends in order, sets the
event and takes the lock. -/
theorem C9_witness :
    AsyncioList.extend (⟨[1], false⟩ : AsyncioList Int) [2, 3]
      = (⟨[1, 2, 3], true⟩, true) :=
  (C9_extend (⟨[1], false⟩ : AsyncioList Int) [2, 3]).1 (by decide)

/-- C10: `pop` accepts negative indices counted from the end: for a list of
length `n`, an index with `-n ≤ index < 0` removes and returns the element
at position `index + n`, a non-negative `index < n` removes and returns the
element at `index`, exactly the indices outside `[-n, n)` fail with
`IndexOutOfBounds` leaving the state unchanged — while `get` rejects every
negative index with `IndexOutOfBounds`. -/
theorem C10_pop_negative {T : Type u} (xs : List T) (ev : Bool)
    (index : Int) :
    (index < 0 → -(xs.length : Int) ≤ index →
      ∃ x, xs.get? (index + (xs.length : Int)).toNat = some x ∧
        AsyncioList.pop (⟨xs, ev⟩ : AsyncioList T) index
          = (Except.ok x,
             ⟨xs.take (index + (xs.length : Int)).toNat
                ++ xs.drop ((index + (xs.length : Int)).toNat + 1), true⟩)) ∧
    (0 ≤ index → index < (xs.length : Int) →
      ∃ x, xs.get? index.toNat = some x ∧
        AsyncioList.pop (⟨xs, ev⟩ : AsyncioList T) index
          = (Except.ok x,
             ⟨xs.take index.toNat ++ xs.drop (index.toNat + 1), true⟩)) ∧
    (index < -(xs.length : Int) ∨ (xs.length : Int) ≤ index →
      AsyncioList.pop (⟨xs, ev⟩ : AsyncioList T) index
        = (Except.error Err.indexOutOfBounds, ⟨xs, ev⟩)) ∧
    (index < 0 →
      AsyncioList.get (⟨xs, ev⟩ : AsyncioList T) index
        = (Except.error Err.indexOutOfBounds, ⟨xs, ev⟩)) := by
  refine ⟨?_, ?_, ?_, ?_⟩
  · intro hneg hge
    have hlt : (index + (xs.length : Int)).toNat < xs.length := by omega
    have hcast : (((index + (xs.length : Int)).toNat : Nat) : Int)
        = if index < 0 then index + (xs.length : Int) else index := by
      rw [if_pos hneg]
      omega
    refine ⟨xs.get ⟨(index + (xs.length : Int)).toNat, hlt⟩,
      List.get?_eq_get hlt, ?_⟩
    rw [pop_mk, pyPop_normalized xs index _ hcast hlt]
    cases ev <;> rfl
  · intro h0 hn
    have hlt : index.toNat < xs.length := by omega
    have hcast : ((index.toNat : Nat) : Int)
        = if index < 0 then index + (xs.length : Int) else index := by
      rw [if_neg (by omega)]
      omega
    refine ⟨xs.get ⟨index.toNat, hlt⟩, List.get?_eq_get hlt, ?_⟩
    rw [pop_mk, pyPop_normalized xs index _ hcast hlt]
    cases ev <;> rfl
  · intro h
    rw [pop_mk, pyPop_out_of_range xs index h]
  · intro hneg
    unfold AsyncioList.get
    rw [if_pos (Or.inl hneg)]

/-- C10 witness: on `[5, 6, 7]`, `pop (-2)` removes and returns the middle
element `6`, and `get (-2)` fails with `IndexOutOfBounds`. -/
theorem C10_witness :
    AsyncioList.pop (⟨[5, 6, 7], false⟩ : AsyncioList Int) (-2)
      = (Except.ok 6, ⟨[5, 7], true⟩) ∧
    AsyncioList.get (⟨[5, 6, 7], false⟩ : AsyncioList Int) (-2)
      = (Except.error Err.indexOutOfBounds, ⟨[5, 6, 7], false⟩) := by
  constructor
  · obtain ⟨x, hx, hpop⟩ :=
      (C10_pop_negative ([5, 6, 7] : List Int) false (-2)).1 (by decide)
        (by decide)
    have hx6 : some (6 : Int) = some x := by
      rw [← hx]
      rfl
    injection hx6 with hx6
    rw [hpop, ← hx6]
    rfl
  · exact (C10_pop_negative ([5, 6, 7] : List Int) false (-2)).2.2.2
      (by decide)
